/-
Verification of the virtinitrd boot orchestrator (src/main.rs).

The pure parsing functions are translated directly from the Rust source.
Stateful, syscall-heavy stages (pseudo-filesystem mounting, share mounting,
the root transition, module loading, process replacement) are embedded as
functions that produce explicit traces of kernel operations, parameterised
by oracles for filesystem state and syscall outcomes, mirroring the
control flow of the source.
-/
import Mathlib

/-- Tokenizer worker: splits a character list on separator characters,
skipping empty tokens, accumulating the current token in reverse.
Models Rust str::split_whitespace (and, with a slash separator, path
component splitting). -/
def splitTokensGo (sep : Char → Bool) : List Char → List Char → List String
  | [], acc => if acc.isEmpty then [] else [String.mk acc.reverse]
  | c :: cs, acc =>
    if sep c then
      if acc.isEmpty then splitTokensGo sep cs []
      else String.mk acc.reverse :: splitTokensGo sep cs []
    else splitTokensGo sep cs (c :: acc)

/-- Split a string on separator characters, skipping empty tokens. -/
def splitTokens (sep : Char → Bool) (s : String) : List String :=
  splitTokensGo sep s.data []

/-- Model of Rust str::split_whitespace: maximal nonempty runs of
non-whitespace characters. -/
def splitWhitespace (s : String) : List String :=
  splitTokens Char.isWhitespace s

/-- Model of Rust str::strip_prefix at character level: remove the
leading characters ps from cs, or return none when cs does not start
with ps. -/
def stripPre : List Char → List Char → Option (List Char)
  | [], cs => some cs
  | _ :: _, [] => none
  | p :: ps, c :: cs => if c = p then stripPre ps cs else none

/-- Model of param.strip_prefix of the string key followed by an equals
sign, as used in cmdline_get: if the parameter starts with key= return
the remainder, else nothing. -/
def stripKeyEq (key param : String) : Option String :=
  (stripPre (key ++ "=").data param.data).map String.mk

/-- One iteration of the cmdline_get loop body: a parameter matches a key
when it is exactly the key (bare flag, empty value) or has the form
key=value (value returned). -/
def param_match (key param : String) : Option String :=
  if param = key then some ""
  else stripKeyEq key param

/-- The cmdline_get loop over an explicit token list: return the match of
the first matching parameter, none when no parameter matches. -/
def cmdlineGetList (key : String) : List String → Option String
  | [] => none
  | p :: rest =>
    match param_match key p with
    | some v => some v
    | none => cmdlineGetList key rest

/-- Translation of fn cmdline_get from src/main.rs: scan the
whitespace-separated parameters left to right, return empty string for a
bare flag token equal to key, the right-hand side for the first key=value
token, none if no token matches. -/
def cmdline_get (cmdline key : String) : Option String :=
  cmdlineGetList key (splitWhitespace cmdline)

/-- One iteration of the cmdline_get_mounts loop body, mirroring the
branch structure of the source: try strip_prefix of mount= first (pushing
(tag, false) for nonempty tags), else try strip_prefix of mount-ro=
(pushing (tag, true) for nonempty tags), else nothing. -/
def mount_param_match (param : String) : Option (String × Bool) :=
  match stripPre ("mount=").data param.data with
  | some tag => if tag = [] then none else some (String.mk tag, false)
  | none =>
    match stripPre ("mount-ro=").data param.data with
    | some tag => if tag = [] then none else some (String.mk tag, true)
    | none => none

/-- The cmdline_get_mounts loop over an explicit token list. -/
def mountsList : List String → List (String × Bool)
  | [] => []
  | p :: rest =>
    match mount_param_match p with
    | some m => m :: mountsList rest
    | none => mountsList rest

/-- Translation of fn cmdline_get_mounts from src/main.rs: collect all
mount= and mount-ro= parameters in source order, tagging read-only
status, skipping empty tags. -/
def cmdline_get_mounts (cmdline : String) : List (String × Bool) :=
  mountsList (splitWhitespace cmdline)

/-- Root share tag resolution from do_init:
cmdline_get(cmdline, "rootfs").unwrap_or("rootfs"). -/
def rootfs_tag (cmdline : String) : String :=
  (cmdline_get cmdline "rootfs").getD "rootfs"

/- Helper lemmas for the parser. -/

theorem String.mk_data_eq (s : String) : String.mk s.data = s := rfl

theorem stripPre_self_append (ps cs : List Char) :
    stripPre ps (ps ++ cs) = some cs := by
  induction ps with
  | nil => rfl
  | cons p ps ih => simp [stripPre, ih]

theorem cmdlineGetList_eq_none_iff (key : String) (l : List String) :
    cmdlineGetList key l = none ↔ ∀ t ∈ l, param_match key t = none := by
  induction l with
  | nil => simp [cmdlineGetList]
  | cons p rest ih =>
    simp only [cmdlineGetList, List.mem_cons]
    cases h : param_match key p with
    | none =>
      simp only [ih]
      constructor
      · intro hall t ht
        rcases ht with rfl | ht
        · exact h
        · exact hall t ht
      · intro hall t ht
        exact hall t (Or.inr ht)
    | some v =>
      constructor
      · intro hc
        exact absurd hc (by simp)
      · intro hall
        have := hall p (Or.inl rfl)
        rw [h] at this
        exact absurd this (by simp)

theorem cmdlineGetList_first_match (key : String) (l1 : List String) (t : String)
    (l2 : List String) (v : String)
    (h1 : ∀ u ∈ l1, param_match key u = none)
    (h2 : param_match key t = some v) :
    cmdlineGetList key (l1 ++ t :: l2) = some v := by
  induction l1 with
  | nil =>
    simp only [List.nil_append, cmdlineGetList, h2]
  | cons p rest ih =>
    have hp : param_match key p = none := h1 p (List.mem_cons_self p rest)
    simp only [List.cons_append, cmdlineGetList, hp]
    exact ih (fun u hu => h1 u (List.mem_cons_of_mem p hu))

theorem param_match_bare (key : String) : param_match key key = some "" := by
  simp [param_match]

theorem param_match_keyval (key v : String) :
    param_match key (key ++ "=" ++ v) = some v := by
  unfold param_match stripKeyEq
  have hne : key ++ "=" ++ v ≠ key := by
    intro h
    have hdata : (key ++ "=" ++ v).data = key.data := by rw [h]
    rw [String.data_append, String.data_append] at hdata
    have hlen := congrArg List.length hdata
    simp [List.length_append] at hlen
  have hdata : (key ++ "=" ++ v).data = (key ++ "=").data ++ v.data :=
    String.data_append _ _
  rw [if_neg hne, hdata, stripPre_self_append]
  rfl

theorem mountsList_append (l1 l2 : List String) :
    mountsList (l1 ++ l2) = mountsList l1 ++ mountsList l2 := by
  induction l1 with
  | nil => simp [mountsList]
  | cons p rest ih =>
    simp only [List.cons_append, mountsList]
    cases h : mount_param_match p <;> simp [ih]

theorem mount_param_match_rw (t : String) :
    mount_param_match ("mount=" ++ t) =
      if t = "" then none else some (t, false) := by
  unfold mount_param_match
  have hdata : ("mount=" ++ t).data = ("mount=").data ++ t.data :=
    String.data_append _ _
  rw [hdata, stripPre_self_append]
  by_cases h : t = ""
  · subst h
    rfl
  · have hd : t.data ≠ [] := fun hc => h (by cases t; simp_all)
    simp [hd, h]

theorem mount_param_match_ro (t : String) :
    mount_param_match ("mount-ro=" ++ t) =
      if t = "" then none else some (t, true) := by
  unfold mount_param_match
  have hdata : ("mount-ro=" ++ t).data =
      'm' :: 'o' :: 'u' :: 'n' :: 't' :: '-' :: 'r' :: 'o' :: '=' :: t.data := by
    rw [String.data_append]
    rfl
  have hfirst : stripPre ("mount=").data ("mount-ro=" ++ t).data = none := by
    rw [hdata]
    rfl
  have hsecond : stripPre ("mount-ro=").data ("mount-ro=" ++ t).data = some t.data := by
    have h2 : ("mount-ro=" ++ t).data = ("mount-ro=").data ++ t.data :=
      String.data_append _ _
    rw [h2, stripPre_self_append]
  rw [hfirst, hsecond]
  by_cases h : t = ""
  · subst h
    rfl
  · have hd : t.data ≠ [] := fun hc => h (by cases t; simp_all)
    simp [hd, h]

/-- Claim C3: cmdline_get is total, scans tokens left to right, returns
the empty string for the first token exactly equal to the key, the
right-hand side for the first key=value token (first match wins), and
none when no token matches; concretely, get of rootfs on a line holding
rootfs=myvol yields myvol, and get of debug on the line debug yields the
empty-string present marker. -/
theorem claim3_cmdline_get_first_match :
    (∀ cmdline key, cmdline_get cmdline key = cmdlineGetList key (splitWhitespace cmdline)) ∧
    (∀ key l, cmdlineGetList key l = none ↔ ∀ t ∈ l, param_match key t = none) ∧
    (∀ key, param_match key key = some "") ∧
    (∀ key v, param_match key (key ++ "=" ++ v) = some v) ∧
    (∀ key l1 t l2 v, (∀ u ∈ l1, param_match key u = none) → param_match key t = some v →
      cmdlineGetList key (l1 ++ t :: l2) = some v) ∧
    cmdline_get "quiet rootfs=myvol rw" "rootfs" = some "myvol" ∧
    cmdline_get "debug" "debug" = some "" :=
  ⟨fun _ _ => rfl, cmdlineGetList_eq_none_iff, param_match_bare, param_match_keyval,
    fun key l1 t l2 v h1 h2 => cmdlineGetList_first_match key l1 t l2 v h1 h2,
    by decide, by decide⟩

/-- Witness for C3: the first-match clause applied at a concrete
command line. -/
theorem claim3_witness :
    cmdlineGetList "rootfs" (["quiet"] ++ "rootfs=myvol" :: ["rw"]) = some "myvol" :=
  claim3_cmdline_get_first_match.2.2.2.2.1 "rootfs" ["quiet"] "rootfs=myvol" ["rw"] "myvol"
    (by decide) (by decide)

/-- Claim C4: cmdline_get_mounts returns exactly the mount= and mount-ro=
tokens in left-to-right source order, paired with false for mount= and
true for mount-ro=, skipping empty tags, with no deduplication; the line
mount=a mount-ro=b mount=c yields [(a, false), (b, true), (c, false)]. -/
theorem claim4_cmdline_get_mounts :
    (∀ s, cmdline_get_mounts s = mountsList (splitWhitespace s)) ∧
    (∀ l1 l2, mountsList (l1 ++ l2) = mountsList l1 ++ mountsList l2) ∧
    (∀ t, mountsList ["mount=" ++ t] = if t = "" then [] else [(t, false)]) ∧
    (∀ t, mountsList ["mount-ro=" ++ t] = if t = "" then [] else [(t, true)]) ∧
    cmdline_get_mounts "mount=a mount-ro=b mount=c" =
      [("a", false), ("b", true), ("c", false)] := by
  refine ⟨fun _ => rfl, mountsList_append, fun t => ?_, fun t => ?_, by decide⟩
  · simp only [mountsList, mount_param_match_rw t]
    by_cases h : t = "" <;> simp [h, mountsList]
  · simp only [mountsList, mount_param_match_ro t]
    by_cases h : t = "" <;> simp [h, mountsList]

/-- Claim C10: a bare rootfs token before any rootfs= token makes
cmdline_get return the empty string, so the root share tag resolves to
the empty string rather than the default; the default applies only when
no token matches rootfs at all. -/
theorem claim10_bare_rootfs_token :
    cmdline_get "rootfs rootfs=myvol" "rootfs" = some "" ∧
    rootfs_tag "rootfs rootfs=myvol" = "" ∧
    (∀ s, cmdline_get s "rootfs" = none → rootfs_tag s = "rootfs") ∧
    (∀ l1 l2, (∀ u ∈ l1, param_match "rootfs" u = none) →
      cmdlineGetList "rootfs" (l1 ++ "rootfs" :: l2) = some "") := by
  refine ⟨by decide, by decide, fun s h => ?_, fun l1 l2 h => ?_⟩
  · unfold rootfs_tag
    rw [h]
    rfl
  · exact cmdlineGetList_first_match "rootfs" l1 "rootfs" l2 "" h (param_match_bare "rootfs")

/-- Witness for C10: the default-tag clause applied at a concrete
command line with no rootfs token. -/
theorem claim10_witness : rootfs_tag "quiet rw" = "rootfs" :=
  claim10_bare_rootfs_token.2.2.1 "quiet rw" (by decide)

/- Mount requests and flag bits, with the numeric values of the Linux
mount flags used through nix MsFlags in the source. -/

def MS_RDONLY : Nat := 1
def MS_NOSUID : Nat := 2
def MS_NODEV : Nat := 4
def MS_NOEXEC : Nat := 8
def MS_MOVE : Nat := 8192

/-- Argument tuple of one nix mount call. -/
structure MountReq where
  source : Option String
  target : String
  fstype : Option String
  flags : Nat
  data : Option String
deriving DecidableEq

/-- The fixed mount table of fn mount_apis from src/main.rs, in source
order. -/
def mount_apis_table : List MountReq :=
  [⟨some "sysfs", "/sys", some "sysfs", MS_NOSUID ||| MS_NOEXEC ||| MS_NODEV, none⟩,
   ⟨some "devtmpfs", "/dev", some "devtmpfs", MS_NOSUID, some "seclabel,mode=0755,size=4m"⟩,
   ⟨some "proc", "/proc", some "proc", MS_NOSUID ||| MS_NOEXEC ||| MS_NODEV, none⟩,
   ⟨some "tmpfs", "/run", some "tmpfs", MS_NOSUID ||| MS_NODEV, some "seclabel,mode=0755,size=64m"⟩,
   ⟨some "tmpfs", "/tmp", some "tmpfs", MS_NOSUID ||| MS_NODEV, some "seclabel,mode=0755,size=128m"⟩]

/-- The mount_apis loop: attempt each mount in order; the question-mark
operator on a failing mount call returns immediately, so the attempted
requests and the success flag are computed by stopping at the first
request the syscall oracle ok rejects. -/
def run_mounts (ok : MountReq → Bool) : List MountReq → List MountReq × Bool
  | [] => ([], true)
  | m :: rest =>
    if ok m then
      let r := run_mounts ok rest
      (m :: r.1, r.2)
    else ([m], false)

/-- Translation of fn mount_apis from src/main.rs, parameterised by a
syscall outcome oracle: result is the list of attempted mounts in order
and whether the whole function succeeded. -/
def mount_apis (ok : MountReq → Bool) : List MountReq × Bool :=
  run_mounts ok mount_apis_table

theorem run_mounts_isPre (ok : MountReq → Bool) (l : List MountReq) :
    (run_mounts ok l).1 <+: l := by
  induction l with
  | nil => exact List.prefix_refl _
  | cons m rest ih =>
    simp only [run_mounts]
    by_cases h : ok m = true
    · simp only [if_pos h]
      obtain ⟨t, ht⟩ := ih
      exact ⟨t, by rw [List.cons_append, ht]⟩
    · simp only [if_neg h]
      exact ⟨rest, rfl⟩

theorem run_mounts_all_ok (ok : MountReq → Bool) (l : List MountReq)
    (h : ∀ m ∈ l, ok m = true) : run_mounts ok l = (l, true) := by
  induction l with
  | nil => rfl
  | cons m rest ih =>
    have hm : ok m = true := h m (List.mem_cons_self m rest)
    simp only [run_mounts, if_pos hm, ih (fun x hx => h x (List.mem_cons_of_mem m hx))]

theorem run_mounts_first_fail (ok : MountReq → Bool) (l1 : List MountReq)
    (m : MountReq) (l2 : List MountReq)
    (h1 : ∀ x ∈ l1, ok x = true) (h2 : ok m = false) :
    run_mounts ok (l1 ++ m :: l2) = (l1 ++ [m], false) := by
  induction l1 with
  | nil => simp [run_mounts, h2]
  | cons p rest ih =>
    have hp : ok p = true := h1 p (List.mem_cons_self p rest)
    have ih2 := ih (fun x hx => h1 x (List.mem_cons_of_mem p hx))
    simp only [List.cons_append, run_mounts, if_pos hp, List.append_eq, ih2]

/-- Claim C7: mount_apis issues exactly five mounts with exactly the
listed sources, targets, filesystem types, flags and mount data, in the
fixed order sysfs, devtmpfs, proc, tmpfs at /run, tmpfs at /tmp; every
attempted sequence is a prefix of that table, a run with no failure
attempts the whole table and succeeds, and the first failing mount ends
the sequence with no later mount attempted. -/
theorem claim7_mount_apis :
    mount_apis_table =
      [⟨some "sysfs", "/sys", some "sysfs", MS_NOSUID ||| MS_NOEXEC ||| MS_NODEV, none⟩,
       ⟨some "devtmpfs", "/dev", some "devtmpfs", MS_NOSUID, some "seclabel,mode=0755,size=4m"⟩,
       ⟨some "proc", "/proc", some "proc", MS_NOSUID ||| MS_NOEXEC ||| MS_NODEV, none⟩,
       ⟨some "tmpfs", "/run", some "tmpfs", MS_NOSUID ||| MS_NODEV,
         some "seclabel,mode=0755,size=64m"⟩,
       ⟨some "tmpfs", "/tmp", some "tmpfs", MS_NOSUID ||| MS_NODEV,
         some "seclabel,mode=0755,size=128m"⟩] ∧
    mount_apis_table.length = 5 ∧
    (∀ ok, (mount_apis ok).1 <+: mount_apis_table) ∧
    (∀ ok, (∀ m ∈ mount_apis_table, ok m = true) → mount_apis ok = (mount_apis_table, true)) ∧
    (∀ ok l1 m l2, mount_apis_table = l1 ++ m :: l2 → (∀ x ∈ l1, ok x = true) →
      ok m = false → mount_apis ok = (l1 ++ [m], false)) := by
  refine ⟨rfl, rfl, fun ok => run_mounts_isPre ok mount_apis_table,
    fun ok h => run_mounts_all_ok ok mount_apis_table h, fun ok l1 m l2 hsplit h1 h2 => ?_⟩
  unfold mount_apis
  rw [hsplit]
  exact run_mounts_first_fail ok l1 m l2 h1 h2

/-- Witness for C7: a concrete oracle that rejects the proc mount leads
to exactly three attempted mounts and failure. -/
theorem claim7_witness :
    mount_apis (fun r => !(r.target == "/proc")) =
      ([⟨some "sysfs", "/sys", some "sysfs", MS_NOSUID ||| MS_NOEXEC ||| MS_NODEV, none⟩,
        ⟨some "devtmpfs", "/dev", some "devtmpfs", MS_NOSUID, some "seclabel,mode=0755,size=4m"⟩,
        ⟨some "proc", "/proc", some "proc", MS_NOSUID ||| MS_NOEXEC ||| MS_NODEV, none⟩],
       false) :=
  claim7_mount_apis.2.2.2.2 (fun r => !(r.target == "/proc"))
    [⟨some "sysfs", "/sys", some "sysfs", MS_NOSUID ||| MS_NOEXEC ||| MS_NODEV, none⟩,
     ⟨some "devtmpfs", "/dev", some "devtmpfs", MS_NOSUID, some "seclabel,mode=0755,size=4m"⟩]
    ⟨some "proc", "/proc", some "proc", MS_NOSUID ||| MS_NOEXEC ||| MS_NODEV, none⟩
    [⟨some "tmpfs", "/run", some "tmpfs", MS_NOSUID ||| MS_NODEV,
       some "seclabel,mode=0755,size=64m"⟩,
     ⟨some "tmpfs", "/tmp", some "tmpfs", MS_NOSUID ||| MS_NODEV,
       some "seclabel,mode=0755,size=128m"⟩]
    (by decide) (by decide) (by decide)

/-- Translation of fn mount_virtiofs from src/main.rs: the mount request
it issues for a given tag, mountpoint and read-only flag. -/
def mount_virtiofs (tag mountpoint : String) (read_only : Bool) : MountReq :=
  ⟨some tag, mountpoint, some "virtiofs", if read_only then MS_RDONLY else 0, none⟩

/-- Operations performed by the share-mounting stage of do_init. -/
inductive ShareOp where
  | mkdirP (path : String)
  | mountShare (req : MountReq)
deriving DecidableEq

/-- The additional-mounts loop of do_init: for each (tag, read_only)
pair, create /run/mnt/tag and mount the virtio-fs share there. -/
def shareMountsOps : List (String × Bool) → List ShareOp
  | [] => []
  | (tag, ro) :: rest =>
    ShareOp.mkdirP ("/run/mnt/" ++ tag) ::
    ShareOp.mountShare (mount_virtiofs tag ("/run/mnt/" ++ tag) ro) ::
    shareMountsOps rest

/-- The share-mounting stage of do_init: mount the root share read-only
at /sysroot using the resolved rootfs tag, then process each mount= and
mount-ro= parameter in command-line order. -/
def share_stage (cmdline : String) : List ShareOp :=
  ShareOp.mountShare (mount_virtiofs (rootfs_tag cmdline) "/sysroot" true) ::
  shareMountsOps (cmdline_get_mounts cmdline)

/-- Extract the mount requests issued by a share-stage trace, in order. -/
def shareMountReqs (ops : List ShareOp) : List MountReq :=
  ops.filterMap (fun op =>
    match op with
    | ShareOp.mountShare r => some r
    | ShareOp.mkdirP _ => none)

theorem shareMountReqs_shareMountsOps (l : List (String × Bool)) :
    shareMountReqs (shareMountsOps l) =
      l.map (fun p => mount_virtiofs p.1 ("/run/mnt/" ++ p.1) p.2) := by
  induction l with
  | nil => rfl
  | cons p rest ih =>
    obtain ⟨tag, ro⟩ := p
    simp only [shareMountsOps, shareMountReqs, List.filterMap_cons, List.map_cons]
    simpa [shareMountReqs] using ih

/-- Claim C5: the share-mounting stage mounts the root share read-only at
/sysroot under the tag resolved from the rootfs key (default tag rootfs
when absent), then for each mount= and mount-ro= parameter, in
command-line order, creates /run/mnt/tag and mounts the share there with
the read-only flag determined by which key matched; repeated tags are not
deduplicated. -/
theorem claim5_share_stage :
    (∀ cmdline, shareMountReqs (share_stage cmdline) =
      mount_virtiofs (rootfs_tag cmdline) "/sysroot" true ::
        (cmdline_get_mounts cmdline).map
          (fun p => mount_virtiofs p.1 ("/run/mnt/" ++ p.1) p.2)) ∧
    (∀ cmdline, share_stage cmdline =
      ShareOp.mountShare (mount_virtiofs (rootfs_tag cmdline) "/sysroot" true) ::
        ((cmdline_get_mounts cmdline).map
          (fun p => [ShareOp.mkdirP ("/run/mnt/" ++ p.1),
            ShareOp.mountShare (mount_virtiofs p.1 ("/run/mnt/" ++ p.1) p.2)])).flatten) ∧
    (∀ tag mountpoint, (mount_virtiofs tag mountpoint true).flags = MS_RDONLY ∧
      (mount_virtiofs tag mountpoint false).flags = 0 ∧
      (mount_virtiofs tag mountpoint true).fstype = some "virtiofs") ∧
    (∀ cmdline, cmdline_get cmdline "rootfs" = none → rootfs_tag cmdline = "rootfs") ∧
    share_stage "mount=data mount-ro=data" =
      [ShareOp.mountShare (mount_virtiofs "rootfs" "/sysroot" true),
       ShareOp.mkdirP "/run/mnt/data",
       ShareOp.mountShare (mount_virtiofs "data" "/run/mnt/data" false),
       ShareOp.mkdirP "/run/mnt/data",
       ShareOp.mountShare (mount_virtiofs "data" "/run/mnt/data" true)] := by
  refine ⟨fun cmdline => ?_, fun cmdline => ?_, fun tag mountpoint => ⟨rfl, rfl, rfl⟩,
    fun cmdline h => ?_, by decide⟩
  · simp only [share_stage, shareMountReqs, List.filterMap_cons]
    rw [show (List.filterMap (fun op =>
      match op with
      | ShareOp.mountShare r => some r
      | ShareOp.mkdirP _ => none) (shareMountsOps (cmdline_get_mounts cmdline))) =
      shareMountReqs (shareMountsOps (cmdline_get_mounts cmdline)) from rfl]
    rw [shareMountReqs_shareMountsOps]
  · simp only [share_stage, List.cons.injEq, true_and]
    induction cmdline_get_mounts cmdline with
    | nil => rfl
    | cons p rest ih =>
      obtain ⟨tag, ro⟩ := p
      simp [shareMountsOps, ih]
  · unfold rootfs_tag
    rw [h]
    rfl

/-- Witness for C5: the default-tag clause applied at a command line with
no rootfs key. -/
theorem claim5_witness : rootfs_tag "mount=data" = "rootfs" :=
  claim5_share_stage.2.2.2.1 "mount=data" (by decide)

/-- Model of fn main from src/main.rs, as a function of the result value
returned by do_init: on an error, print it to standard error; in all
cases return Ok, so the process exit code is 0. The pair holds the lines
written to standard error and the exit code. -/
def mainResult (doInitResult : Except String Unit) : List String × Nat :=
  match doInitResult with
  | Except.error e => (["Unexpected error: " ++ e], 0)
  | Except.ok _ => ([], 0)

/-- The question-mark chain of do_init: stages run in order and the
first stage error is returned, later stages not attempted. -/
def firstError : List (Except String Unit) → Except String Unit
  | [] => Except.ok ()
  | Except.ok _ :: rest => firstError rest
  | Except.error e :: _ => Except.error e

/-- Claim C2: main always returns success (exit code 0); when do_init
returns an error, main prints that first fatal failure to standard error
and still returns Ok, so a boot sequence that failed partway does not
produce a non-zero exit status. -/
theorem claim2_main_exit_zero :
    (∀ r, (mainResult r).2 = 0) ∧
    (∀ e, mainResult (Except.error e) = (["Unexpected error: " ++ e], 0)) ∧
    mainResult (Except.ok ()) = ([], 0) ∧
    (∀ pre e rest, (∀ s ∈ pre, s = Except.ok ()) →
      firstError (pre ++ Except.error e :: rest) = Except.error e) := by
  refine ⟨fun r => ?_, fun e => rfl, rfl, fun pre e rest h => ?_⟩
  · cases r <;> rfl
  · induction pre with
    | nil => rfl
    | cons s ss ih =>
      have hs : s = Except.ok () := h s (List.mem_cons_self s ss)
      subst hs
      exact ih (fun x hx => h x (List.mem_cons_of_mem _ hx))

/-- Witness for C2: a failing do_init still yields exit code 0 and the
error printed to standard error. -/
theorem claim2_witness :
    firstError [Except.ok (), Except.error "EIO", Except.ok ()] = Except.error "EIO" ∧
    (mainResult (Except.error "EIO")).2 = 0 :=
  ⟨claim2_main_exit_zero.2.2.2 [Except.ok ()] "EIO" [Except.ok ()]
      (by intro s hs; rw [List.mem_singleton] at hs; exact hs),
   claim2_main_exit_zero.1 (Except.error "EIO")⟩

/-- Model of Rust Path::file_name on the strings this program builds:
the last slash-separated nonempty component that is not a current-dir
marker, and none when that component is a parent-dir marker or the path
has no such component. -/
def path_file_name (p : String) : Option String :=
  match ((splitTokens (fun c => c = '/') p).filter (fun comp => comp ≠ ".")).getLast? with
  | none => none
  | some c => if c = ".." then none else some c

/-- The process-replacement tail of do_init: resolve the init program
from the init command-line key (default /bin/sh), derive argv[0] as the
final path component falling back to the whole path, and call execv with
exactly that one argument. Result: (program path, argv). -/
def exec_plan (cmdline : String) : String × List String :=
  let init_program := (cmdline_get cmdline "init").getD "/bin/sh"
  let init_name := (path_file_name init_program).getD init_program
  (init_program, [init_name])

/-- Claim C6: process replacement resolves the init program from the
init key with default /bin/sh, derives argv[0] as the final path
component (falling back to the full path string when there is none), and
passes exactly that one argument; with no init key the program is
/bin/sh and argv[0] is sh. -/
theorem claim6_exec_plan :
    (∀ cmdline, (exec_plan cmdline).1 = (cmdline_get cmdline "init").getD "/bin/sh") ∧
    (∀ cmdline, (exec_plan cmdline).2 =
      [(path_file_name (exec_plan cmdline).1).getD (exec_plan cmdline).1]) ∧
    (∀ cmdline, (exec_plan cmdline).2.length = 1) ∧
    path_file_name "/bin/sh" = some "sh" ∧
    path_file_name "sh" = some "sh" ∧
    path_file_name "/" = none ∧
    (∀ cmdline, cmdline_get cmdline "init" = none → exec_plan cmdline = ("/bin/sh", ["sh"])) := by
  refine ⟨fun _ => rfl, fun _ => rfl, fun _ => rfl, by decide, by decide, by decide,
    fun cmdline h => ?_⟩
  unfold exec_plan
  rw [h]
  rfl

/-- Witness for C6: with no init key the exec plan is /bin/sh with
argv[0] sh. -/
theorem claim6_witness : exec_plan "rootfs=myvol debug" = ("/bin/sh", ["sh"]) :=
  claim6_exec_plan.2.2.2.2.2.2 "rootfs=myvol debug" (by decide)

/-- Lexicographic less-or-equal on character lists, matching the
byte-wise Rust str cmp used in the module sort (UTF-8 byte order agrees
with code point order). -/
def charListLe : List Char → List Char → Bool
  | [], _ => true
  | _ :: _, [] => false
  | a :: as, b :: bs => if a = b then charListLe as bs else decide (a < b)

/-- The module sort comparator of load_kernel_modules:
a_name.cmp(b_name) as a less-or-equal test on file names. -/
def nameLe (a b : String) : Bool := charListLe a.data b.data

theorem charListLe_total (as bs : List Char) :
    charListLe as bs = true ∨ charListLe bs as = true := by
  induction as generalizing bs with
  | nil => left; rfl
  | cons a as ih =>
    cases bs with
    | nil => right; rfl
    | cons b bs =>
      by_cases hab : a = b
      · subst hab
        simpa [charListLe] using ih bs
      · rcases lt_or_gt_of_ne hab with h | h
        · left
          simp [charListLe, hab, h]
        · right
          have hba : b ≠ a := fun hc => hab hc.symm
          simp [charListLe, hba, h]

theorem charListLe_trans (as bs cs : List Char)
    (h1 : charListLe as bs = true) (h2 : charListLe bs cs = true) :
    charListLe as cs = true := by
  induction as generalizing bs cs with
  | nil => rfl
  | cons a as ih =>
    cases bs with
    | nil => simp [charListLe] at h1
    | cons b bs =>
      cases cs with
      | nil => simp [charListLe] at h2
      | cons c cs =>
        by_cases hab : a = b
        · subst hab
          by_cases hbc : a = c
          · subst hbc
            simp only [charListLe, if_pos rfl] at h1 h2 ⊢
            exact ih bs cs h1 h2
          · simp only [charListLe, if_pos rfl] at h1
            simp only [charListLe, if_neg hbc] at h2 ⊢
            exact h2
        · simp only [charListLe, if_neg hab, decide_eq_true_eq] at h1
          by_cases hbc : b = c
          · subst hbc
            simp [charListLe, hab, h1]
          · simp only [charListLe, if_neg hbc, decide_eq_true_eq] at h2
            have hlt : a < c := lt_trans h1 h2
            have hac : a ≠ c := ne_of_lt hlt
            simp [charListLe, hac, hlt]

instance : IsTotal String (fun a b => nameLe a b = true) :=
  ⟨fun a b => charListLe_total a.data b.data⟩

instance : IsTrans String (fun a b => nameLe a b = true) :=
  ⟨fun a b c => charListLe_trans a.data b.data c.data⟩

/-- One directory entry as load_kernel_modules sees it: its file name
and whether it is a regular file. -/
structure DirEntry where
  name : String
  isFile : Bool
deriving DecidableEq

/-- Worker for path_extension: the characters after the last dot of a
list, or none when the list has no dot. -/
def extAux : List Char → Option (List Char)
  | [] => none
  | c :: cs =>
    match extAux cs with
    | some e => some e
    | none => if c = '.' then some cs else none

/-- Model of Rust Path::extension on a bare file name: the portion after
the last dot, unless the only dot is the leading character (a dotfile
has no extension). -/
def path_extension (name : String) : Option String :=
  match name.data with
  | [] => none
  | _ :: cs => (extAux cs).map String.mk

/-- The selection step of load_kernel_modules: names of the regular
files whose extension is ko. -/
def ko_files (entries : List DirEntry) : List String :=
  (entries.filter (fun e => e.isFile && path_extension e.name == some "ko")).map DirEntry.name

/-- The selection and sort steps of load_kernel_modules: the ko file
names in ascending byte-wise name order. -/
def module_load_order (entries : List DirEntry) : List String :=
  List.insertionSort (fun a b => nameLe a b = true) (ko_files entries)

/-- The state of the module directory as observed by
load_kernel_modules: missing, failing enumeration, or a list of
entries. -/
inductive DirState where
  | absent
  | unreadable (msg : String)
  | present (entries : List DirEntry)

/-- The per-module loop of load_kernel_modules: each module in the
sorted list is attempted; a load failure is recorded and the loop
continues with the next module. The oracle loadRes gives the outcome of
reading and inserting one module. -/
def run_module_loads (loadRes : String → Except String Unit) : List String → List (String × Bool)
  | [] => []
  | m :: rest =>
    match loadRes m with
    | Except.ok _ => (m, true) :: run_module_loads loadRes rest
    | Except.error _ => (m, false) :: run_module_loads loadRes rest

/-- Translation of fn load_kernel_modules from src/main.rs: succeed with
no work when the directory is missing, fail only when enumeration fails,
otherwise attempt every selected module in sorted order and succeed. -/
def load_kernel_modules (d : DirState) (loadRes : String → Except String Unit) :
    Except String (List (String × Bool)) :=
  match d with
  | DirState.absent => Except.ok []
  | DirState.unreadable e => Except.error e
  | DirState.present entries =>
    Except.ok (run_module_loads loadRes (module_load_order entries))

theorem run_module_loads_fst (loadRes : String → Except String Unit) (l : List String) :
    (run_module_loads loadRes l).map Prod.fst = l := by
  induction l with
  | nil => rfl
  | cons m rest ih =>
    simp only [run_module_loads]
    cases loadRes m <;> simp [ih]

/-- Claim C8: the module loader selects exactly the regular files whose
extension is ko, orders them ascending by file name under byte-wise
comparison, and attempts each in that order; a directory holding b.ko,
a.ko and c.txt yields load order a.ko then b.ko with c.txt excluded. -/
theorem claim8_module_order :
    (∀ entries, List.Perm (module_load_order entries) (ko_files entries)) ∧
    (∀ entries, List.Sorted (fun a b => nameLe a b = true) (module_load_order entries)) ∧
    (∀ entries x, x ∈ module_load_order entries ↔
      ∃ e ∈ entries, e.isFile = true ∧ path_extension e.name = some "ko" ∧ e.name = x) ∧
    (∀ entries loadRes, (run_module_loads loadRes (module_load_order entries)).map Prod.fst =
      module_load_order entries) ∧
    module_load_order [⟨"b.ko", true⟩, ⟨"a.ko", true⟩, ⟨"c.txt", true⟩] = ["a.ko", "b.ko"] := by
  refine ⟨fun entries => List.perm_insertionSort _ _, 
    fun entries => List.sorted_insertionSort _ _, fun entries x => ?_, 
    fun entries loadRes => run_module_loads_fst loadRes _, by decide⟩
  unfold module_load_order
  rw [(List.perm_insertionSort (fun a b => nameLe a b = true) (ko_files entries)).mem_iff]
  unfold ko_files
  simp only [List.mem_map, List.mem_filter, Bool.and_eq_true, beq_iff_eq]
  constructor
  · rintro ⟨e, ⟨he, hf, hext⟩, rfl⟩
    exact ⟨e, he, hf, hext, rfl⟩
  · rintro ⟨e, he, hf, hext, rfl⟩
    exact ⟨e, ⟨he, hf, hext⟩, rfl⟩

/-- Claim C9: load_kernel_modules succeeds trivially on a missing
directory, fails exactly when enumeration fails, and an individual
module failure neither stops the loop (every later module is still
attempted) nor fails the overall call. -/
theorem claim9_module_failure_policy :
    (∀ loadRes, load_kernel_modules DirState.absent loadRes = Except.ok []) ∧
    (∀ e loadRes, load_kernel_modules (DirState.unreadable e) loadRes = Except.error e) ∧
    (∀ entries loadRes, load_kernel_modules (DirState.present entries) loadRes =
      Except.ok (run_module_loads loadRes (module_load_order entries))) ∧
    (∀ loadRes l, (run_module_loads loadRes l).map Prod.fst = l) :=
  ⟨fun _ => rfl, fun _ _ => rfl, fun _ _ => rfl, fun loadRes l => run_module_loads_fst loadRes l⟩

/-- Translation of fn move_mount from src/main.rs: the mount request for
re-parenting the mount at src onto dest (MS_MOVE, no fstype, no data). -/
def move_mount (src dest : String) : MountReq :=
  ⟨some src, dest, none, MS_MOVE, none⟩

/-- Kernel operations issued during the root transition. -/
inductive BootOp where
  | mount (req : MountReq)
  | umount (path : String)
  | chdir (path : String)
  | openFile (path : String)
  | chroot (path : String)
deriving DecidableEq

/-- The fixed list of surviving mountpoints from do_init, in source
order. -/
def survivingMounts : List String := ["/run", "/dev", "/proc", "/sys", "/tmp"]

/-- One iteration of the surviving-mounts loop of do_init: when the
matching directory exists under the new root (oracle ex models
Path::exists), move the mount there, else unmount it in place. -/
def move_or_umount (ex : String → Bool) (mp : String) : BootOp :=
  if ex ("/sysroot" ++ mp) then BootOp.mount (move_mount mp ("/sysroot" ++ mp))
  else BootOp.umount mp

/-- Translation of fn switch_root from src/main.rs as the sequence of
kernel operations it issues: chdir to the new root, open a handle on the
old root, move-mount the current directory onto the top-level
mountpoint, chroot to the current directory, chdir to the (new) root. -/
def switch_root (newroot : String) : List BootOp :=
  [BootOp.chdir newroot, BootOp.openFile "/",
   BootOp.mount (move_mount "." "/"), BootOp.chroot ".", BootOp.chdir "/"]

/-- The root-transition tail of do_init: process each surviving
mountpoint in the fixed order, then run switch_root on /sysroot. -/
def root_transition (ex : String → Bool) : List BootOp :=
  survivingMounts.map (move_or_umount ex) ++ switch_root "/sysroot"

/-- Abstract kernel state observed by the root transition: the
mountpoints of the five pseudo-filesystem mounts still attached under
the old root, the mountpoints they have been moved to under the new
root, the mount placed at the top-level mountpoint, and the process
root and working directory (as paths of the pre-transition namespace). -/
structure KState where
  oldMounts : List String
  newMounts : List String
  topMount : Option String
  root : String
  cwd : String
deriving DecidableEq

/-- Kernel state when the root transition starts: the five
pseudo-filesystems are mounted under the old root, nothing is moved yet,
and the process root and working directory are the old root. -/
def initState : KState :=
  ⟨["/run", "/dev", "/proc", "/sys", "/tmp"], [], none, "/", "/"⟩

/-- Path resolution relative to the current root and working directory:
a dot is the working directory, and other paths are interpreted under
the current chroot. -/
def resolvePath (st : KState) (p : String) : String :=
  if p = "." then st.cwd
  else if st.root = "/" then p
  else if p = "/" then st.root
  else st.root ++ p

/-- Effect of one root-transition operation on the abstract kernel
state: a move mount detaches the source mount and reattaches it at the
destination (at the top-level mountpoint when the destination is the
root), umount detaches the mount in place, chdir and chroot update the
process working directory and root, and opening a file changes
nothing. -/
def kstep (st : KState) (op : BootOp) : KState :=
  match op with
  | BootOp.chdir p => { st with cwd := resolvePath st p }
  | BootOp.chroot p => { st with root := resolvePath st p }
  | BootOp.openFile _ => st
  | BootOp.umount p => { st with oldMounts := st.oldMounts.erase (resolvePath st p) }
  | BootOp.mount r =>
    if r.flags = MS_MOVE then
      match r.source with
      | some s =>
        let src := resolvePath st s
        let dest := resolvePath st r.target
        let st1 := { st with oldMounts := st.oldMounts.erase src }
        if dest = "/" then { st1 with topMount := some src }
        else { st1 with newMounts := st1.newMounts ++ [dest] }
      | none => st
    else st

/-- The kernel state after the whole root-transition sequence. -/
def run_boot (ex : String → Bool) : KState :=
  (root_transition ex).foldl kstep initState

/-- Claim C1: the root transition processes the surviving mountpoints in
the fixed order /run, /dev, /proc, /sys, /tmp, moving each to its
prefixed path under the new root when that directory exists and
unmounting it in place otherwise, then changes directory to the new
root, opens a handle on the old root, move-mounts the current directory
onto the top-level mountpoint, chroots to the current directory and
changes directory to the root; afterwards the process root and working
directory are the new root, the moved mounts are exactly those whose
mountpoints existed under the new root, and no mount of the old root
remains attached. -/
theorem claim1_root_transition (ex : String → Bool) :
    root_transition ex =
      [(if ex ("/sysroot" ++ "/run")
        then BootOp.mount (move_mount "/run" ("/sysroot" ++ "/run"))
        else BootOp.umount "/run"),
       (if ex ("/sysroot" ++ "/dev")
        then BootOp.mount (move_mount "/dev" ("/sysroot" ++ "/dev"))
        else BootOp.umount "/dev"),
       (if ex ("/sysroot" ++ "/proc")
        then BootOp.mount (move_mount "/proc" ("/sysroot" ++ "/proc"))
        else BootOp.umount "/proc"),
       (if ex ("/sysroot" ++ "/sys")
        then BootOp.mount (move_mount "/sys" ("/sysroot" ++ "/sys"))
        else BootOp.umount "/sys"),
       (if ex ("/sysroot" ++ "/tmp")
        then BootOp.mount (move_mount "/tmp" ("/sysroot" ++ "/tmp"))
        else BootOp.umount "/tmp"),
       BootOp.chdir "/sysroot", BootOp.openFile "/",
       BootOp.mount (move_mount "." "/"), BootOp.chroot ".", BootOp.chdir "/"] ∧
    (run_boot ex).root = "/sysroot" ∧
    (run_boot ex).cwd = "/sysroot" ∧
    (run_boot ex).topMount = some "/sysroot" ∧
    (run_boot ex).oldMounts = [] ∧
    (run_boot ex).newMounts =
      (survivingMounts.filter (fun mp => ex ("/sysroot" ++ mp))).map
        (fun mp => "/sysroot" ++ mp) := by
  refine ⟨rfl, ?_⟩
  cases h1 : ex ("/sysroot" ++ "/run") <;>
    cases h2 : ex ("/sysroot" ++ "/dev") <;>
      cases h3 : ex ("/sysroot" ++ "/proc") <;>
        cases h4 : ex ("/sysroot" ++ "/sys") <;>
          cases h5 : ex ("/sysroot" ++ "/tmp") <;>
            · simp only [run_boot, root_transition, survivingMounts, switch_root,
                List.map_cons, List.map_nil, move_or_umount, h1, h2, h3, h4, h5,
                List.filter_cons, List.filter_nil, if_true, if_false,
                List.cons_append, List.nil_append]
              decide
